import Mathlib

/-!
Shallow embedding of the timing / cue-scheduling core of the Halo
timecode UI (src/main.rs).

Modelling conventions:
  * `std::time::Duration` and `std::time::Instant` values are modelled as
    exact rationals measured in seconds.  The Rust code only ever builds
    durations from whole seconds (`Duration::from_secs`) or from
    `60.0 / bpm`, and `Instant` arithmetic is exact, so rationals are a
    faithful idealisation; `f32` rounding of `as_secs_f32` is not modelled.
  * The single `f32` division in `Cue::update` is modelled by the type
    `F32` below, which distinguishes finite values from the IEEE-754
    results `NaN` and `+inf` that division by zero produces.  Both
    operands of that division come from `Duration::as_secs_f32` and are
    therefore finite and non-negative.
  * `Instant::now()` is modelled by threading an explicit `now : ℚ`
    argument into every operation that reads the clock.
-/

/-- Model of the `f32` values the program can store in `Cue.progress`:
a finite value, `NaN`, or `+inf` (IEEE-754 results of dividing a
non-negative finite float by zero). -/
inductive F32 where
  | nan : F32
  | posInf : F32
  | val : ℚ → F32
deriving DecidableEq

/-- IEEE-754 `f32` division for the operand shapes the program produces:
both operands are finite non-negative values of `Duration::as_secs_f32`.
`0.0 / 0.0 = NaN`; `x / 0.0 = +inf` for finite `x > 0`; otherwise exact. -/
def F32.div : F32 → F32 → F32
  | F32.val a, F32.val b =>
      if b = 0 then (if a = 0 then F32.nan else F32.posInf)
      else F32.val (a / b)
  | _, _ => F32.nan

/-- `struct Cue` (src/main.rs lines 4-11): show data plus derived
playback state. -/
structure Cue where
  name : String
  start_time : ℚ
  duration : ℚ
  is_playing : Bool
  progress : F32
deriving DecidableEq

/-- `Cue::new` (src/main.rs lines 14-22). -/
def Cue.new (name : String) (start_time_secs duration_secs : ℕ) : Cue :=
  { name := name
    start_time := start_time_secs
    duration := duration_secs
    is_playing := false
    progress := F32.val 0 }

/-- `Cue::update` (src/main.rs lines 24-38): derive `is_playing` and
`progress` from the current elapsed time. -/
def Cue.update (c : Cue) (current_time : ℚ) : Cue :=
  if c.start_time ≤ current_time then
    let elapsed_in_cue := current_time - c.start_time
    if elapsed_in_cue ≤ c.duration then
      { c with is_playing := true
               progress := F32.div (F32.val elapsed_in_cue) (F32.val c.duration) }
    else
      { c with is_playing := false, progress := F32.val 1 }
  else
    { c with is_playing := false, progress := F32.val 0 }

/-- `struct BeatIndicator` (src/main.rs lines 41-45). -/
structure BeatIndicator where
  current_beat : ℕ
  last_beat_time : ℚ
  beat_duration : ℚ
deriving DecidableEq

/-- `BeatIndicator::new` (src/main.rs lines 48-54); `now` models the
`Instant::now()` taken at construction. -/
def BeatIndicator.new (now : ℚ) : BeatIndicator :=
  { current_beat := 0
    last_beat_time := now
    beat_duration := 60 / 120 }

/-- `BeatIndicator::update` (src/main.rs lines 56-62).
`self.last_beat_time.elapsed()` is `now - last_beat_time`. -/
def BeatIndicator.update (b : BeatIndicator) (bpm : ℚ) (now : ℚ) : BeatIndicator :=
  let b' := { b with beat_duration := 60 / bpm }
  if b'.beat_duration ≤ now - b'.last_beat_time then
    { b' with current_beat := (b'.current_beat + 1) % 4, last_beat_time := now }
  else b'

/-- The timing-relevant fields of `struct HaloApp`
(src/main.rs lines 70-83); pure GUI fields are omitted. -/
structure HaloApp where
  running : Bool
  start_time : Option ℚ
  elapsed : ℚ
  cues : List Cue
  bpm : ℚ
  beat_indicator : BeatIndicator
deriving DecidableEq

/-- `impl Default for HaloApp` (src/main.rs lines 85-121), restricted to
the timing-relevant fields; `now` models the `Instant::now()` taken by
`BeatIndicator::new`. -/
def HaloApp.default (now : ℚ) : HaloApp :=
  { running := false
    start_time := none
    elapsed := 0
    cues := [Cue.new "Opening" 2 5,
             Cue.new "First Verse" 8 10,
             Cue.new "Chorus" 19 8,
             Cue.new "Bridge" 28 12,
             Cue.new "Finale" 41 6]
    bpm := 120
    beat_indicator := BeatIndicator.new now }

/-- The per-frame elapsed/cue refresh at the top of `HaloApp::update`
(src/main.rs lines 213-222). -/
def HaloApp.tick (app : HaloApp) (now : ℚ) : HaloApp :=
  if app.running then
    match app.start_time with
    | some start =>
        let e := now - start
        { app with elapsed := e, cues := app.cues.map (fun c => c.update e) }
    | none => app
  else app

/-- The Start/Stop button handler (src/main.rs lines 319-327): toggle
`running`; if now running, set `start_time = Instant::now() - elapsed`. -/
def HaloApp.startStopClick (app : HaloApp) (now : ℚ) : HaloApp :=
  let app' := { app with running := !app.running }
  if app'.running then { app' with start_time := some (now - app'.elapsed) }
  else app'

/-- The Reset button handler (src/main.rs lines 329-339): zero `elapsed`;
if running, set `start_time = Instant::now()`; clear every cue's derived
state. -/
def HaloApp.resetClick (app : HaloApp) (now : ℚ) : HaloApp :=
  let app' := { app with elapsed := 0 }
  let app'' := if app'.running then { app' with start_time := some now } else app'
  { app'' with
      cues := app''.cues.map (fun c => { c with is_playing := false, progress := F32.val 0 }) }

/-- The state effect of `HaloApp::draw_beat_indicator`
(src/main.rs lines 205-207): the beat indicator is updated only while
the transport is running. -/
def HaloApp.drawBeat (app : HaloApp) (now : ℚ) : HaloApp :=
  if app.running then
    { app with beat_indicator := app.beat_indicator.update app.bpm now }
  else app

/-- The user/frame-level operations that can reach the timing core, each
carrying the `Instant::now()` observed when it runs. -/
inductive Cmd where
  | frameTick (now : ℚ)
  | drawBeat (now : ℚ)
  | startStop (now : ℚ)
  | reset (now : ℚ)
deriving DecidableEq

/-- Interpret one operation on the app state. -/
def HaloApp.exec (app : HaloApp) : Cmd → HaloApp
  | Cmd.frameTick now => app.tick now
  | Cmd.drawBeat now => app.drawBeat now
  | Cmd.startStop now => app.startStopClick now
  | Cmd.reset now => app.resetClick now

/-- Run a sequence of operations from a starting state. -/
def HaloApp.run (app : HaloApp) (cmds : List Cmd) : HaloApp :=
  cmds.foldl HaloApp.exec app

/-! ### Helper lemmas -/

/-- A single operation never moves `current_beat` above 3. -/
theorem HaloApp.exec_beat_le (app : HaloApp) (cmd : Cmd)
    (h : app.beat_indicator.current_beat ≤ 3) :
    (app.exec cmd).beat_indicator.current_beat ≤ 3 := by
  cases cmd with
  | frameTick now =>
      simp only [HaloApp.exec, HaloApp.tick]
      split_ifs
      · cases hs : app.start_time <;> simp [hs, h]
      · exact h
  | drawBeat now =>
      simp only [HaloApp.exec, HaloApp.drawBeat, BeatIndicator.update]
      split_ifs <;> simp [h]
      omega
  | startStop now =>
      simp only [HaloApp.exec, HaloApp.startStopClick]
      split_ifs <;> exact h
  | reset now =>
      simp only [HaloApp.exec, HaloApp.resetClick]
      split_ifs <;> exact h

/-- Every state reached from a state with `current_beat ≤ 3` keeps
`current_beat ≤ 3`. -/
theorem HaloApp.run_beat_le (cmds : List Cmd) (app : HaloApp)
    (h : app.beat_indicator.current_beat ≤ 3) :
    (app.run cmds).beat_indicator.current_beat ≤ 3 := by
  induction cmds generalizing app with
  | nil => exact h
  | cons c cs ih => exact ih (app.exec c) (app.exec_beat_le c h)

/-! ### Claim theorems -/

/-- C1: the code does NOT guard the zero-duration case.  For a cue with
`duration = 0`, `Cue::update` at `current_time = start` takes the
`elapsed_in_cue <= duration` branch and performs the division
`0.0 / 0.0` unguarded, producing `is_playing = true` and
`progress = NaN` — not the `progress = 1` the spec requires. -/
theorem c1_zero_duration_unguarded_division :
    ((Cue.new "X" 0 0).update 0).progress = F32.nan ∧
    ((Cue.new "X" 0 0).update 0).is_playing = true ∧
    ¬ ((Cue.new "X" 0 0).update 0).progress = F32.val 1 := by
  refine ⟨?_, ?_, ?_⟩ <;> norm_num [Cue.new, Cue.update, F32.div]
  exact fun h => F32.noConfusion h

/-- C2 counterexample: for the default show's Chorus cue
(start = 19s, duration = 8s), at elapsed = 27s the code takes the
inclusive boundary branch (`elapsed_in_cue <= duration`) and reports
`is_playing = true`, refuting the claim's "not playing" at 27s. -/
theorem c2_counterexample :
    (HaloApp.default 0).cues.get? 2 = some (Cue.new "Chorus" 19 8) ∧
    ¬ ((Cue.new "Chorus" 19 8).update 27).is_playing = false := by
  constructor
  · rfl
  · norm_num [Cue.new, Cue.update]

/-- C2 (amended): for the Chorus cue (start = 19s, duration = 8s):
at e = 19s playing with progress = 0; at e = 23s playing with
progress = 0.5; at e = 27s STILL playing (inclusive boundary) with
progress = 1. -/
theorem c2_chorus_scenario :
    (((Cue.new "Chorus" 19 8).update 19).is_playing = true ∧
     ((Cue.new "Chorus" 19 8).update 19).progress = F32.val 0) ∧
    (((Cue.new "Chorus" 19 8).update 23).is_playing = true ∧
     ((Cue.new "Chorus" 19 8).update 23).progress = F32.val (1 / 2)) ∧
    (((Cue.new "Chorus" 19 8).update 27).is_playing = true ∧
     ((Cue.new "Chorus" 19 8).update 27).progress = F32.val 1) := by
  norm_num [Cue.new, Cue.update, F32.div]

/-- C3: for every cue with positive duration, `Cue::update` is exactly
the piecewise reference function: before the window it is not playing
with progress 0; inside the window (inclusive) progress is the exact
ratio `(e - start) / duration`; strictly after the window it is not
playing with progress 1. -/
theorem c3_cue_update_piecewise (c : Cue) (e : ℚ) (hd : 0 < c.duration) :
    (e < c.start_time →
        (c.update e).is_playing = false ∧ (c.update e).progress = F32.val 0) ∧
    (c.start_time ≤ e → e ≤ c.start_time + c.duration →
        (c.update e).progress = F32.val ((e - c.start_time) / c.duration)) ∧
    (c.start_time + c.duration < e →
        (c.update e).is_playing = false ∧ (c.update e).progress = F32.val 1) := by
  refine ⟨?_, ?_, ?_⟩
  · intro hlt
    simp only [Cue.update]
    rw [if_neg (by linarith)]
    exact ⟨rfl, rfl⟩
  · intro h1 h2
    simp only [Cue.update]
    rw [if_pos h1, if_pos (by linarith)]
    simp only [F32.div]
    rw [if_neg (by positivity)]
  · intro hgt
    simp only [Cue.update]
    rw [if_pos (by linarith), if_neg (by linarith)]
    exact ⟨rfl, rfl⟩

/-- C3 witness: the piecewise law applied to the Chorus cue at e = 23. -/
theorem c3_witness :
    (0 : ℚ) < (Cue.new "Chorus" 19 8).duration ∧
    ((Cue.new "Chorus" 19 8).start_time ≤ (23 : ℚ) →
      (23 : ℚ) ≤ (Cue.new "Chorus" 19 8).start_time + (Cue.new "Chorus" 19 8).duration →
      ((Cue.new "Chorus" 19 8).update 23).progress =
        F32.val ((23 - (Cue.new "Chorus" 19 8).start_time) / (Cue.new "Chorus" 19 8).duration)) := by
  refine ⟨by norm_num [Cue.new], ?_⟩
  exact (c3_cue_update_piecewise (Cue.new "Chorus" 19 8) 23 (by norm_num [Cue.new])).2.1

/-- C4 counterexample: a stopped app with `start_time = some 5`; after
the Reset handler at `now = 100`, `start_time` is still `some 5` — it is
NOT assigned a new value (the assignment is inside `if self.running`). -/
theorem c4_counterexample :
    ((HaloApp.mk false (some 5) 3 [] 120 (BeatIndicator.new 0)).resetClick 100).start_time
      = some 5 ∧
    ¬ ((HaloApp.mk false (some 5) 3 [] 120 (BeatIndicator.new 0)).resetClick 100).start_time
      = some 100 := by
  constructor <;> norm_num [HaloApp.resetClick]

/-- C4 (amended): Reset while stopped leaves `start_time` unchanged and
zeroes `elapsed`; the fresh start reference only arises when `start()`
is next invoked, which then computes `start_time = now - 0 = now`. -/
theorem c4_reset_while_stopped (app : HaloApp) (now : ℚ) (h : app.running = false) :
    (app.resetClick now).start_time = app.start_time ∧
    (app.resetClick now).elapsed = 0 ∧
    ∀ t, ((app.resetClick now).startStopClick t).start_time = some t := by
  refine ⟨?_, ?_, ?_⟩ <;> simp [HaloApp.resetClick, HaloApp.startStopClick, h]

/-- C4 witness: the amended reset-while-stopped law at a concrete app. -/
theorem c4_witness :
    (HaloApp.mk false (some 5) 3 [] 120 (BeatIndicator.new 0)).running = false ∧
    ((HaloApp.mk false (some 5) 3 [] 120 (BeatIndicator.new 0)).resetClick 100).start_time
      = (HaloApp.mk false (some 5) 3 [] 120 (BeatIndicator.new 0)).start_time :=
  ⟨rfl, (c4_reset_while_stopped (HaloApp.mk false (some 5) 3 [] 120 (BeatIndicator.new 0))
      100 rfl).1⟩

/-- C5: pause/resume preserves position.  From any stopped state:
start at `t0`, tick 3 s later, stop, start again at `t1`, tick 2 s
later — the counter reads the prior elapsed plus 5 s, because `start()`
sets `start_time = now - elapsed`; from the default (elapsed = 0) app
the counter reads exactly 5 s (not 2, not 8). -/
theorem c5_pause_resume_preserves_position (app : HaloApp) (h : app.running = false)
    (now0 t0 s t1 : ℚ) :
    (((((app.startStopClick t0).tick (t0 + 3)).startStopClick s).startStopClick t1).tick
        (t1 + 2)).elapsed = app.elapsed + 5 ∧
    (app.startStopClick t0).start_time = some (t0 - app.elapsed) ∧
    ((((((HaloApp.default now0).startStopClick t0).tick (t0 + 3)).startStopClick s).startStopClick
        t1).tick (t1 + 2)).elapsed = 5 := by
  refine ⟨?_, ?_, ?_⟩ <;>
    simp [HaloApp.startStopClick, HaloApp.tick, HaloApp.default, h] <;> ring

/-- C5 witness: the pause/resume law at concrete times from a concrete
stopped app. -/
theorem c5_witness :
    (HaloApp.mk false none 0 [] 120 (BeatIndicator.new 0)).running = false ∧
    ((((((HaloApp.mk false none 0 [] 120 (BeatIndicator.new 0)).startStopClick 10).tick
        (10 + 3)).startStopClick 14).startStopClick 20).tick (20 + 2)).elapsed
      = (HaloApp.mk false none 0 [] 120 (BeatIndicator.new 0)).elapsed + 5 :=
  ⟨rfl, (c5_pause_resume_preserves_position
      (HaloApp.mk false none 0 [] 120 (BeatIndicator.new 0)) rfl 0 10 14 20).1⟩

/-- C6: Reset while running restarts from zero without stopping: the
transport stays running, `elapsed = 0`, every cue is cleared to
`is_playing = false` and `progress = 0`, and a tick `d` seconds later
reads `elapsed = d` (accumulation restarts from zero). -/
theorem c6_reset_while_running (app : HaloApp) (now : ℚ) (h : app.running = true) :
    (app.resetClick now).running = true ∧
    (app.resetClick now).elapsed = 0 ∧
    (∀ c ∈ (app.resetClick now).cues, c.is_playing = false ∧ c.progress = F32.val 0) ∧
    ∀ d, ((app.resetClick now).tick (now + d)).elapsed = d := by
  refine ⟨?_, ?_, ?_, ?_⟩ <;> simp [HaloApp.resetClick, HaloApp.tick, h]

/-- C6 witness: the reset-while-running law at a concrete running app. -/
theorem c6_witness :
    (HaloApp.mk true (some 2) 7 [Cue.new "A" 1 2] 120 (BeatIndicator.new 0)).running = true ∧
    ((HaloApp.mk true (some 2) 7 [Cue.new "A" 1 2] 120 (BeatIndicator.new 0)).resetClick
        10).elapsed = 0 ∧
    (((HaloApp.mk true (some 2) 7 [Cue.new "A" 1 2] 120 (BeatIndicator.new 0)).resetClick
        10).tick (10 + 4)).elapsed = 4 :=
  ⟨rfl,
   (c6_reset_while_running (HaloApp.mk true (some 2) 7 [Cue.new "A" 1 2] 120
       (BeatIndicator.new 0)) 10 rfl).2.1,
   (c6_reset_while_running (HaloApp.mk true (some 2) 7 [Cue.new "A" 1 2] 120
       (BeatIndicator.new 0)) 10 rfl).2.2.2 4⟩

/-- C7: starting from the default app, after every sequence of
operations `current_beat` stays in `[0, 3]`; each `BeatIndicator::update`
either leaves `current_beat` unchanged or advances it by exactly 1 mod 4,
the latter exactly when at least the (freshly recomputed) beat duration
`60 / bpm` has elapsed since `last_beat_time`; and the draw step invokes
the update only while the transport is running. -/
theorem c7_beat_indicator_invariant :
    (∀ (now0 : ℚ) (cmds : List Cmd),
        ((HaloApp.default now0).run cmds).beat_indicator.current_beat ≤ 3) ∧
    (∀ (b : BeatIndicator) (bpm now : ℚ),
        (b.update bpm now).current_beat = b.current_beat ∨
        ((b.update bpm now).current_beat = (b.current_beat + 1) % 4 ∧
         60 / bpm ≤ now - b.last_beat_time)) ∧
    (∀ (app : HaloApp) (now : ℚ), app.running = false →
        (app.drawBeat now).beat_indicator = app.beat_indicator) := by
  refine ⟨?_, ?_, ?_⟩
  · intro now0 cmds
    exact HaloApp.run_beat_le cmds (HaloApp.default now0)
      (by simp [HaloApp.default, BeatIndicator.new])
  · intro b bpm now
    simp only [BeatIndicator.update]
    split_ifs with hcond
    · exact Or.inr ⟨rfl, hcond⟩
    · exact Or.inl rfl
  · intro app now h
    simp [HaloApp.drawBeat, h]

/-- C7 witness: the beat-indicator invariant at a concrete app and a
concrete command sequence. -/
theorem c7_witness :
    ((HaloApp.default 0).run [Cmd.drawBeat 1, Cmd.frameTick 2]).beat_indicator.current_beat
      ≤ 3 ∧
    (((BeatIndicator.new 0).update 120 1).current_beat = (BeatIndicator.new 0).current_beat ∨
      (((BeatIndicator.new 0).update 120 1).current_beat
          = ((BeatIndicator.new 0).current_beat + 1) % 4 ∧
       (60 : ℚ) / 120 ≤ 1 - (BeatIndicator.new 0).last_beat_time)) ∧
    ((HaloApp.default 0).drawBeat 1).beat_indicator = (HaloApp.default 0).beat_indicator :=
  ⟨c7_beat_indicator_invariant.1 0 [Cmd.drawBeat 1, Cmd.frameTick 2],
   c7_beat_indicator_invariant.2.1 (BeatIndicator.new 0) 120 1,
   c7_beat_indicator_invariant.2.2 (HaloApp.default 0) 1 rfl⟩

/-- C8: `Cue::update` is idempotent — updating twice with the same
elapsed value yields the same cue state as updating once, because the
derived fields depend only on the immutable `start_time`/`duration` and
the argument. -/
theorem c8_cue_update_idempotent (c : Cue) (e : ℚ) :
    (c.update e).update e = c.update e := by
  simp only [Cue.update]
  split_ifs <;> simp_all

/-- C9: the Reset handler touches only `elapsed`, `start_time` and the
cues — the beat indicator (both `current_beat` and `last_beat_time`) is
unchanged by a transport reset. -/
theorem c9_reset_preserves_beat_indicator (app : HaloApp) (now : ℚ) :
    (app.resetClick now).beat_indicator = app.beat_indicator := by
  simp only [HaloApp.resetClick]
  split_ifs <;> rfl

/-- C10: while the transport is not running, the per-frame tick is a
no-op: `elapsed` and every cue's derived state stay frozen at their last
values (in fact the whole app state is unchanged). -/
theorem c10_tick_frozen_when_stopped (app : HaloApp) (now : ℚ)
    (h : app.running = false) :
    (app.tick now).elapsed = app.elapsed ∧
    (app.tick now).cues = app.cues ∧
    app.tick now = app := by
  refine ⟨?_, ?_, ?_⟩ <;> simp [HaloApp.tick, h]

/-- C10 witness: the frozen-tick law on the default (stopped) app. -/
theorem c10_witness :
    (HaloApp.default 0).running = false ∧ (HaloApp.default 0).tick 5 = HaloApp.default 0 :=
  ⟨rfl, (c10_tick_frozen_when_stopped (HaloApp.default 0) 5 rfl).2.2⟩
